import Mathlib

/-!
# Engagement-segment selection core of ClipsMaker (`clips.py`)

Shallow embedding of the engagement-segment selection algorithm of
`YouTubeToShortsPipeline` in `clips.py`:

* `_combine_segments`      → `combineSegments`
* `_analyze_text_engagement`  → `analyzeTextEngagement`
* `_analyze_audio_engagement` → `analyzeAudioEngagement`
* `_calculate_engagement_score` → `calculateEngagementScore`
* `analyze_engagement`     → `analyzeEngagement`

Modelling conventions:

* Python floats are modelled as exact rationals (`ℚ`); the heuristics only
  add, multiply, divide by constants, compare and take `min`/`max`.
* Python strings are modelled as `List Char`; the operations used by the core
  (`strip`, `lower`, `count`, `split()`, concatenation, `==`) are defined
  below on character lists with the semantics of the Python builtins.
* External collaborators (TextBlob sentiment polarity, `np.sqrt`,
  librosa spectral-centroid / zero-crossing-rate feature means) are opaque
  function parameters collected in a `Collaborators` structure.  `np.sqrt`
  carries its mathematical contract (non-negative results on non-negative
  inputs) as a structure field, since the model replaces the real square
  root by an opaque rational-valued function.
* Python's `list.sort(key=..., reverse=True)` is a stable descending sort;
  it is modelled by the stable descending insertion sort `sortByScoreDesc`,
  whose sortedness and stability are proved below.
-/

/-! ## Character-list models of the Python string operations -/

/-- Python `str.strip()` (leading and trailing whitespace removed). -/
def trimCL (l : List Char) : List Char :=
  ((l.dropWhile Char.isWhitespace).reverse.dropWhile Char.isWhitespace).reverse

/-- Python `str.lower()` (per-character lowering; the characters relevant to
the core are ASCII letters and emoji, on which this agrees with Python). -/
def lowerCL (l : List Char) : List Char :=
  l.map Char.toLower

/-- Fuel-driven worker for `countOccs`; the fuel is an upper bound on the
length of the scanned list, so that the recursion is structural and the
kernel can evaluate it. -/
def countOccsAux (p : List Char) : Nat → List Char → Nat
  | 0, _ => 0
  | _ + 1, [] => 0
  | fuel + 1, c :: rest =>
    if p ≠ [] ∧ p.isPrefixOf (c :: rest) then
      1 + countOccsAux p fuel ((c :: rest).drop p.length)
    else
      countOccsAux p fuel rest

/-- Python `s.count(p)` for a non-empty pattern `p`: number of
non-overlapping occurrences of `p` in `s`, scanning left to right and
resuming after each match. -/
def countOccs (p s : List Char) : Nat :=
  countOccsAux p s.length s

/-- Worker for `wordCount`: counts maximal non-whitespace runs; the flag
records whether the scan is currently inside a word. -/
def wordCountAux : Bool → List Char → Nat
  | _, [] => 0
  | inWord, c :: rest =>
    if c.isWhitespace then
      wordCountAux false rest
    else
      (if inWord then 0 else 1) + wordCountAux true rest

/-- Python `len(s.split())`: number of whitespace-separated words. -/
def wordCount (l : List Char) : Nat :=
  wordCountAux false l

/-! ## External collaborators -/

/-- The external numeric collaborators consumed by the scoring core:
TextBlob's sentiment polarity, `np.sqrt`, and the means of librosa's
spectral-centroid and zero-crossing-rate features.  `sqrt_nonneg` is the
mathematical contract of `np.sqrt` on non-negative inputs, recorded here
because the model replaces the real square root by an opaque function. -/
structure Collaborators where
  sentiment : List Char → ℚ
  sqrtQ : ℚ → ℚ
  sqrt_nonneg : ∀ q : ℚ, 0 ≤ q → 0 ≤ sqrtQ q
  meanCentroid : List ℚ → ℕ → ℚ
  meanZcr : List ℚ → ℚ

/-- Trivial collaborators (everything returns `0`), used to evaluate the
core on concrete inputs. -/
def zeroCollab : Collaborators where
  sentiment := fun _ => 0
  sqrtQ := fun _ => 0
  sqrt_nonneg := fun _ _ => le_refl 0
  meanCentroid := fun _ _ => 0
  meanZcr := fun _ => 0

/-- Collaborators whose sentiment polarity is the constant `1` (a value
inside the documented `[-1, 1]` polarity range). -/
def oneSentCollab : Collaborators where
  sentiment := fun _ => 1
  sqrtQ := fun _ => 0
  sqrt_nonneg := fun _ _ => le_refl 0
  meanCentroid := fun _ _ => 0
  meanZcr := fun _ => 0

/-! ## Audio slicing (`audio[start_sample:end_sample]`) -/

/-- Python `int(q)`: truncation toward zero. -/
def ratTrunc (q : ℚ) : ℤ :=
  if 0 ≤ q then ⌊q⌋ else ⌈q⌉

/-- Python list/array slicing `a[i:j]` with full index-resolution
semantics (negative indices count from the end, out-of-range indices are
clamped). -/
def pySlice (a : List ℚ) (i j : ℤ) : List ℚ :=
  let n : ℤ := a.length
  let lo : ℤ := if i < 0 then max (n + i) 0 else min i n
  let hi : ℤ := if j < 0 then max (n + j) 0 else min j n
  (a.drop lo.toNat).take (hi - lo).toNat

/-- The waveform slice examined by `_analyze_audio_engagement`:
`audio[int(start_time * sample_rate) : int(end_time * sample_rate)]`. -/
def audioSlice (audio : List ℚ) (sampleRate : ℕ) (startTime endTime : ℚ) : List ℚ :=
  pySlice audio (ratTrunc (startTime * sampleRate)) (ratTrunc (endTime * sampleRate))

/-- `np.mean(segment_audio ** 2)`: mean of the squared samples. -/
def meanSq (l : List ℚ) : ℚ :=
  (l.map fun x => x * x).sum / l.length

/-! ## The scorers (`_analyze_text_engagement`, `_analyze_audio_engagement`,
`_calculate_engagement_score`) -/

/-- The laughter patterns of `_analyze_text_engagement`:
`['haha', 'lol', 'lmao', '😂', '😄', '😆']`. -/
def laughterPatterns : List (List Char) :=
  [['h', 'a', 'h', 'a'], ['l', 'o', 'l'], ['l', 'm', 'a', 'o'],
   ['😂'], ['😄'], ['😆']]

/-- `sum(text.lower().count(pattern) for pattern in laughter_patterns)`. -/
def laughterTotal (text : List Char) : Nat :=
  (laughterPatterns.map fun p => countOccs p (lowerCL text)).sum

/-- `_analyze_text_engagement(text)`: sentiment intensity, question,
exclamation, laughter and length signals, each capped, summed, capped at 1.
`if not text` in Python is true exactly for the empty string. -/
def analyzeTextEngagement (C : Collaborators) (text : List Char) : ℚ :=
  if text = [] then 0
  else
    let sentiment := C.sentiment text
    let s1 := |sentiment| * (3 / 10)
    let questions : ℕ := text.count '?'
    let s2 := min ((questions : ℚ) * (2 / 10)) (3 / 10)
    let exclamations : ℕ := text.count '!'
    let s3 := min ((exclamations : ℚ) * (15 / 100)) (2 / 10)
    let s4 := min ((laughterTotal text : ℚ) * (1 / 10)) (2 / 10)
    let s5 : ℚ := if 5 ≤ wordCount text ∧ wordCount text ≤ 50 then 1 / 10 else 0
    min (s1 + s2 + s3 + s4 + s5) 1

/-- `_analyze_audio_engagement(audio, sample_rate, start_time, end_time)`:
slice the waveform, return 0 on an empty slice, otherwise sum the capped
loudness (rms), brightness (mean spectral centroid) and speech-activity
(mean zero-crossing rate) signals, capped at 1. -/
def analyzeAudioEngagement (C : Collaborators) (audio : List ℚ) (sampleRate : ℕ)
    (startTime endTime : ℚ) : ℚ :=
  let segmentAudio := audioSlice audio sampleRate startTime endTime
  if segmentAudio = [] then 0
  else
    let rms := C.sqrtQ (meanSq segmentAudio)
    let s1 := min (rms * 10) (4 / 10)
    let s2 := min (C.meanCentroid segmentAudio sampleRate / 5000) (3 / 10)
    let s3 := min (C.meanZcr segmentAudio * 2) (3 / 10)
    min (s1 + s2 + s3) 1

/-- `_calculate_engagement_score(text, audio, sample_rate, start_time,
end_time)`: `min(text_score * 0.4 + audio_score * 0.6, 1.0)`. -/
def calculateEngagementScore (C : Collaborators) (text : List Char) (audio : List ℚ)
    (sampleRate : ℕ) (startTime endTime : ℚ) : ℚ :=
  let textScore := analyzeTextEngagement C text
  let audioScore := analyzeAudioEngagement C audio sampleRate startTime endTime
  min (textScore * (4 / 10) + audioScore * (6 / 10)) 1

/-- `clamp(x, lo, hi)` as used by the specification's fusion formula. -/
def clamp (x lo hi : ℚ) : ℚ :=
  max lo (min x hi)

/-! ## Data model -/

/-- A Whisper transcript segment as consumed by the core: the keys
`start`, `end`, `text` of the segment dict (`end` is a Lean keyword, so the
field is called `stop`). -/
structure TranscriptSegment where
  start : ℚ
  stop : ℚ
  text : List Char
deriving DecidableEq

/-- A candidate dict flowing into the scoring loop of `analyze_engagement`:
a transcript-segment shape plus an optional `source` key (`none` models a
dict without the key, as for atomic pass-through segments). -/
structure Candidate where
  start : ℚ
  stop : ℚ
  text : List Char
  source : Option String
deriving DecidableEq

/-- An output dict of `analyze_engagement`. -/
structure Scored where
  start_time : ℚ
  end_time : ℚ
  text : List Char
  engagement_score : ℚ
  duration : ℚ
  source : String
deriving DecidableEq

/-! ## Segment merger (`_combine_segments`) -/

/-- Loop body of `_combine_segments`.  State: `curStart` models
`current_start` (`none` = Python `None`), `curText` models `current_text`.
The close condition is the source's
`current_duration >= target_duration or segment == segments[-1]` —
note that `segment == segments[-1]` is Python dict *value* equality with
the last element, not a position test.  A closed group is emitted only if
its duration is at least 10 seconds, then the state resets. -/
def combineAux (lastSeg : TranscriptSegment) (target : ℚ) :
    List TranscriptSegment → Option ℚ → List Char → List Candidate
  | [], _, _ => []
  | seg :: rest, curStart, curText =>
    let cs := curStart.getD seg.start
    let ct := curText ++ (' ' :: trimCL seg.text)
    let dur := seg.stop - cs
    if target ≤ dur ∨ seg = lastSeg then
      (if 10 ≤ dur then
        [{ start := cs, stop := seg.stop, text := trimCL ct, source := some "combined" }]
      else []) ++ combineAux lastSeg target rest none []
    else
      combineAux lastSeg target rest (some cs) ct

/-- `_combine_segments(segments, target_duration)`.  For an empty input the
Python loop body never runs (so `segments[-1]` is never evaluated) and the
result is empty. -/
def combineSegments (segments : List TranscriptSegment) (target : ℚ) : List Candidate :=
  match segments.getLast? with
  | none => []
  | some lastSeg => combineAux lastSeg target segments none []

/-- Modelled from the spec's words (§4.1 / claim C4): the same grouping
loop, but the close condition is "duration reached the target, or the
segment being processed is the last one of the input *by position*". -/
def combineByPosAux (target : ℚ) :
    List TranscriptSegment → Option ℚ → List Char → List Candidate
  | [], _, _ => []
  | seg :: rest, curStart, curText =>
    let cs := curStart.getD seg.start
    let ct := curText ++ (' ' :: trimCL seg.text)
    let dur := seg.stop - cs
    if target ≤ dur ∨ rest = [] then
      (if 10 ≤ dur then
        [{ start := cs, stop := seg.stop, text := trimCL ct, source := some "combined" }]
      else []) ++ combineByPosAux target rest none []
    else
      combineByPosAux target rest (some cs) ct

/-- Modelled from the spec's words: `_combine_segments` with the
position-based close condition of §4.1. -/
def combineSegmentsByPos (segments : List TranscriptSegment) (target : ℚ) : List Candidate :=
  combineByPosAux target segments none []

/-! ## Candidate selector (`analyze_engagement`) -/

/-- Stable descending insertion step: `a` is placed before the first
element whose score is at most `a`'s; elements already in the list came
from later positions of the original list (the sort folds from the
right), so ties keep the original order. -/
def insertScored (a : Scored) : List Scored → List Scored
  | [] => [a]
  | b :: l =>
    if b.engagement_score ≤ a.engagement_score then a :: b :: l
    else b :: insertScored a l

/-- Python `segments.sort(key=lambda x: x['engagement_score'], reverse=True)`:
a stable descending sort by `engagement_score`. -/
def sortByScoreDesc (l : List Scored) : List Scored :=
  l.foldr insertScored []

/-- The duration filter of `analyze_engagement`:
`10 <= seg['duration'] <= 60`. -/
def suitable (s : Scored) : Bool :=
  decide (10 ≤ s.duration) && decide (s.duration ≤ 60)

/-- The scored candidate pool of `analyze_engagement`: the combined
segments (target 30) followed by the atomic segments of duration at least
10 (pass-through dicts without a `source` key), each scored with the
engagement score of its stripped text and its time span.
`seg.get('source', 'unknown')` is `Option.getD`. -/
def scoredPool (C : Collaborators) (transcriptSegments : List TranscriptSegment)
    (audio : List ℚ) (sampleRate : ℕ) : List Scored :=
  let combined := combineSegments transcriptSegments 30
  let longSegs := (transcriptSegments.filter fun s => decide (10 ≤ s.stop - s.start)).map
    fun s => ({ start := s.start, stop := s.stop, text := s.text, source := none } : Candidate)
  (combined ++ longSegs).map fun seg =>
    let text := trimCL seg.text
    { start_time := seg.start
      end_time := seg.stop
      text := text
      engagement_score := calculateEngagementScore C text audio sampleRate seg.start seg.stop
      duration := seg.stop - seg.start
      source := seg.source.getD "unknown" }

/-- `analyze_engagement(transcript_data, audio_path)` after the audio has
been decoded: empty transcript → empty list; otherwise score the pool,
sort by engagement score (stable, descending), filter to durations in
`[10, 60]`, and return the first 10. -/
def analyzeEngagement (C : Collaborators) (transcriptSegments : List TranscriptSegment)
    (audio : List ℚ) (sampleRate : ℕ) : List Scored :=
  if transcriptSegments = [] then []
  else
    ((sortByScoreDesc (scoredPool C transcriptSegments audio sampleRate)).filter
      suitable).take 10

/-! ## Concrete inputs used by witnesses and counterexamples -/

/-- A 12-second transcript segment with text `"hello"`. -/
def segHello : TranscriptSegment :=
  { start := 0, stop := 12, text := ['h', 'e', 'l', 'l', 'o'] }

/-- A 12-second transcript segment with text `"x"`; duplicated in an input
it witnesses the value-equality close condition of the merger. -/
def segX : TranscriptSegment := { start := 0, stop := 12, text := ['x'] }

/-- A malformed transcript segment (`end <= start`). -/
def segBad : TranscriptSegment := { start := 20, stop := 5, text := ['b', 'a', 'd'] }

/-- A well-formed 35-second transcript segment. -/
def segGood : TranscriptSegment := { start := 5, stop := 40, text := ['g', 'o', 'o', 'd'] }

/-- A short segment (5 s) for the merger witness. -/
def segShort : TranscriptSegment := { start := 0, stop := 5, text := ['a'] }

/-- A 15-second segment ending at 20 s for the merger witness. -/
def segMid : TranscriptSegment := { start := 5, stop := 20, text := ['b'] }

/-- The text `"hahaha"`. -/
def hahahaText : List Char := ['h', 'a', 'h', 'a', 'h', 'a']

/-! ## Helper lemmas: the stable descending sort -/

theorem mem_insertScored {x a : Scored} {l : List Scored} :
    x ∈ insertScored a l ↔ x = a ∨ x ∈ l := by
  induction l with
  | nil => simp [insertScored]
  | cons b bs ih =>
    by_cases h : b.engagement_score ≤ a.engagement_score
    · simp [insertScored, h]
    · simp only [insertScored, if_neg h, List.mem_cons, ih]
      tauto

theorem mem_sortByScoreDesc {x : Scored} {l : List Scored} :
    x ∈ sortByScoreDesc l ↔ x ∈ l := by
  induction l with
  | nil => simp [sortByScoreDesc]
  | cons a bs ih =>
    show x ∈ insertScored a (sortByScoreDesc bs) ↔ _
    rw [mem_insertScored, ih, List.mem_cons]

theorem pairwise_insertScored {a : Scored} {l : List Scored}
    (h : l.Pairwise fun u v => v.engagement_score ≤ u.engagement_score) :
    (insertScored a l).Pairwise fun u v => v.engagement_score ≤ u.engagement_score := by
  induction l with
  | nil => simp [insertScored]
  | cons b bs ih =>
    rcases List.pairwise_cons.mp h with ⟨hb, hbs⟩
    by_cases hle : b.engagement_score ≤ a.engagement_score
    · rw [insertScored, if_pos hle]
      refine List.pairwise_cons.mpr ⟨?_, h⟩
      intro y hy
      rcases List.mem_cons.mp hy with rfl | hy
      · exact hle
      · exact le_trans (hb y hy) hle
    · rw [insertScored, if_neg hle]
      refine List.pairwise_cons.mpr ⟨?_, ih hbs⟩
      intro y hy
      rcases mem_insertScored.mp hy with rfl | hy
      · exact le_of_not_le hle
      · exact hb y hy

theorem pairwise_sortByScoreDesc (l : List Scored) :
    (sortByScoreDesc l).Pairwise fun u v => v.engagement_score ≤ u.engagement_score := by
  induction l with
  | nil => exact List.Pairwise.nil
  | cons a bs ih => exact pairwise_insertScored ih

theorem insertScored_filter_score_of_eq {a : Scored} {s : ℚ} {l : List Scored}
    (ha : a.engagement_score = s) :
    (insertScored a l).filter (fun x => decide (x.engagement_score = s)) =
      a :: l.filter (fun x => decide (x.engagement_score = s)) := by
  induction l with
  | nil => simp [insertScored, ha]
  | cons b bs ih =>
    by_cases hle : b.engagement_score ≤ a.engagement_score
    · rw [insertScored, if_pos hle]
      simp [List.filter_cons, ha]
    · have hbs : ¬ b.engagement_score = s := by
        intro hbe
        exact hle (by rw [hbe, ← ha])
      rw [insertScored, if_neg hle]
      simp [List.filter_cons, hbs, ih]

theorem insertScored_filter_score_of_ne {a : Scored} {s : ℚ} {l : List Scored}
    (ha : ¬ a.engagement_score = s) :
    (insertScored a l).filter (fun x => decide (x.engagement_score = s)) =
      l.filter (fun x => decide (x.engagement_score = s)) := by
  induction l with
  | nil => simp [insertScored, ha]
  | cons b bs ih =>
    by_cases hle : b.engagement_score ≤ a.engagement_score
    · rw [insertScored, if_pos hle]
      simp [List.filter_cons, ha]
    · rw [insertScored, if_neg hle]
      by_cases hbe : b.engagement_score = s
      · simp [List.filter_cons, hbe, ih]
      · simp [List.filter_cons, hbe, ih]

/-- Stability of the modelled Python sort: for every score value, the
elements carrying that score appear in the sorted list exactly in their
original order. -/
theorem sortByScoreDesc_filter_score (l : List Scored) (s : ℚ) :
    (sortByScoreDesc l).filter (fun x => decide (x.engagement_score = s)) =
      l.filter (fun x => decide (x.engagement_score = s)) := by
  induction l with
  | nil => rfl
  | cons a bs ih =>
    show (insertScored a (sortByScoreDesc bs)).filter _ = _
    by_cases ha : a.engagement_score = s
    · rw [insertScored_filter_score_of_eq ha, ih]
      simp [List.filter_cons, ha]
    · rw [insertScored_filter_score_of_ne ha, ih]
      simp [List.filter_cons, ha]

/-! ## Helper lemmas: score bounds -/

theorem meanSq_nonneg (l : List ℚ) : 0 ≤ meanSq l := by
  unfold meanSq
  apply div_nonneg
  · apply List.sum_nonneg
    intro x hx
    rcases List.mem_map.mp hx with ⟨y, _, rfl⟩
    exact mul_self_nonneg y
  · exact Nat.cast_nonneg _

theorem analyzeTextEngagement_nonneg (C : Collaborators) (text : List Char) :
    0 ≤ analyzeTextEngagement C text := by
  unfold analyzeTextEngagement
  split
  · exact le_refl 0
  · apply le_min _ zero_le_one
    have h1 : (0 : ℚ) ≤ |C.sentiment text| * (3 / 10) :=
      mul_nonneg (abs_nonneg _) (by norm_num)
    have h2 : (0 : ℚ) ≤ min ((text.count '?' : ℚ) * (2 / 10)) (3 / 10) :=
      le_min (mul_nonneg (Nat.cast_nonneg _) (by norm_num)) (by norm_num)
    have h3 : (0 : ℚ) ≤ min ((text.count '!' : ℚ) * (15 / 100)) (2 / 10) :=
      le_min (mul_nonneg (Nat.cast_nonneg _) (by norm_num)) (by norm_num)
    have h4 : (0 : ℚ) ≤ min ((laughterTotal text : ℚ) * (1 / 10)) (2 / 10) :=
      le_min (mul_nonneg (Nat.cast_nonneg _) (by norm_num)) (by norm_num)
    have h5 : (0 : ℚ) ≤ (if 5 ≤ wordCount text ∧ wordCount text ≤ 50 then (1 : ℚ) / 10 else 0) := by
      split <;> norm_num
    linarith

theorem analyzeTextEngagement_le_one (C : Collaborators) (text : List Char) :
    analyzeTextEngagement C text ≤ 1 := by
  unfold analyzeTextEngagement
  split
  · exact zero_le_one
  · exact min_le_right _ _

theorem analyzeAudioEngagement_nonneg (C : Collaborators)
    (hc : ∀ l n, 0 ≤ C.meanCentroid l n) (hz : ∀ l, 0 ≤ C.meanZcr l)
    (audio : List ℚ) (sampleRate : ℕ) (startTime endTime : ℚ) :
    0 ≤ analyzeAudioEngagement C audio sampleRate startTime endTime := by
  simp only [analyzeAudioEngagement]
  split
  · exact le_refl 0
  · apply le_min _ zero_le_one
    have h1 : (0 : ℚ) ≤ min (C.sqrtQ (meanSq (audioSlice audio sampleRate startTime endTime)) * 10)
        (4 / 10) :=
      le_min (mul_nonneg (C.sqrt_nonneg _ (meanSq_nonneg _)) (by norm_num)) (by norm_num)
    have h2 : (0 : ℚ) ≤ min (C.meanCentroid (audioSlice audio sampleRate startTime endTime)
        sampleRate / 5000) (3 / 10) :=
      le_min (div_nonneg (hc _ _) (by norm_num)) (by norm_num)
    have h3 : (0 : ℚ) ≤ min (C.meanZcr (audioSlice audio sampleRate startTime endTime) * 2)
        (3 / 10) :=
      le_min (mul_nonneg (hz _) (by norm_num)) (by norm_num)
    linarith

theorem analyzeAudioEngagement_le_one (C : Collaborators) (audio : List ℚ) (sampleRate : ℕ)
    (startTime endTime : ℚ) :
    analyzeAudioEngagement C audio sampleRate startTime endTime ≤ 1 := by
  simp only [analyzeAudioEngagement]
  split
  · exact zero_le_one
  · exact min_le_right _ _

/-! ## Helper lemmas: the merger -/

theorem combineAux_duration {lastSeg : TranscriptSegment} {target : ℚ}
    {l : List TranscriptSegment} {curStart : Option ℚ} {curText : List Char}
    {c : Candidate} (h : c ∈ combineAux lastSeg target l curStart curText) :
    10 ≤ c.stop - c.start := by
  induction l generalizing curStart curText with
  | nil => simp [combineAux] at h
  | cons seg rest ih =>
    rw [combineAux] at h
    split at h
    · rcases List.mem_append.mp h with hl | hr
      · split at hl
        · rcases List.mem_singleton.mp hl with rfl
          assumption
        · simp at hl
      · exact ih hr
    · exact ih h

theorem combineAux_source {lastSeg : TranscriptSegment} {target : ℚ}
    {l : List TranscriptSegment} {curStart : Option ℚ} {curText : List Char}
    {c : Candidate} (h : c ∈ combineAux lastSeg target l curStart curText) :
    c.source = some "combined" := by
  induction l generalizing curStart curText with
  | nil => simp [combineAux] at h
  | cons seg rest ih =>
    rw [combineAux] at h
    split at h
    · rcases List.mem_append.mp h with hl | hr
      · split at hl
        · rcases List.mem_singleton.mp hl with rfl
          rfl
        · simp at hl
      · exact ih hr
    · exact ih h

theorem combineSegments_duration {segments : List TranscriptSegment} {target : ℚ}
    {c : Candidate} (h : c ∈ combineSegments segments target) :
    10 ≤ c.stop - c.start := by
  unfold combineSegments at h
  split at h
  · simp at h
  · exact combineAux_duration h

theorem combineSegments_source {segments : List TranscriptSegment} {target : ℚ}
    {c : Candidate} (h : c ∈ combineSegments segments target) :
    c.source = some "combined" := by
  unfold combineSegments at h
  split at h
  · simp at h
  · exact combineAux_source h

/-! ## Helper lemmas: the candidate pool -/

theorem scoredPool_source {C : Collaborators} {segs : List TranscriptSegment}
    {audio : List ℚ} {sampleRate : ℕ} {x : Scored}
    (h : x ∈ scoredPool C segs audio sampleRate) :
    x.source = "combined" ∨ x.source = "unknown" := by
  simp only [scoredPool, List.mem_map, List.mem_append] at h
  rcases h with ⟨seg, hseg | hseg, rfl⟩
  · left
    simp [combineSegments_source hseg]
  · right
    obtain ⟨s, _, rfl⟩ := hseg
    rfl

theorem suitable_iff (x : Scored) :
    suitable x = true ↔ 10 ≤ x.duration ∧ x.duration ≤ 60 := by
  simp [suitable]

/-! ## C1 -/

/-- C1: for every collaborator behaviour, transcript, waveform and sample
rate, every entry of the list returned by `analyze_engagement` has duration
between 10 and 60 inclusive, the list is sorted non-increasingly by
`engagement_score`, ties are left in original pool order (the elements of
any fixed score form a prefix of the corresponding subsequence of the
scored candidate pool), and the length is at most 10. -/
theorem analyzeEngagement_selection_filtering (C : Collaborators)
    (segs : List TranscriptSegment) (audio : List ℚ) (sr : ℕ) :
    (∀ x ∈ analyzeEngagement C segs audio sr, 10 ≤ x.duration ∧ x.duration ≤ 60) ∧
    (analyzeEngagement C segs audio sr).Pairwise
      (fun u v => v.engagement_score ≤ u.engagement_score) ∧
    (analyzeEngagement C segs audio sr).length ≤ 10 ∧
    (∀ s : ℚ, (analyzeEngagement C segs audio sr).filter
        (fun x => decide (x.engagement_score = s)) <+:
      (scoredPool C segs audio sr).filter
        (fun x => decide (x.engagement_score = s) && suitable x)) := by
  by_cases hseg : segs = []
  · refine ⟨?_, ?_, ?_, ?_⟩ <;> simp [analyzeEngagement, hseg]
  · rw [analyzeEngagement, if_neg hseg]
    refine ⟨?_, ?_, ?_, ?_⟩
    · intro x hx
      have hx' := List.mem_filter.mp (List.mem_of_mem_take hx)
      exact (suitable_iff x).mp hx'.2
    · exact ((pairwise_sortByScoreDesc _).filter _).sublist (List.take_sublist _ _)
    · exact List.length_take_le _ _
    · intro s
      have htake := List.take_prefix 10
        ((sortByScoreDesc (scoredPool C segs audio sr)).filter suitable)
      have hpre : (((sortByScoreDesc (scoredPool C segs audio sr)).filter suitable).take
          10).filter (fun x => decide (x.engagement_score = s)) <+:
          ((sortByScoreDesc (scoredPool C segs audio sr)).filter suitable).filter
          (fun x => decide (x.engagement_score = s)) :=
        htake.filter _
      have hcomm : ∀ l : List Scored,
          l.filter (fun x => decide (x.engagement_score = s) && suitable x) =
          l.filter (fun x => suitable x && decide (x.engagement_score = s)) := by
        intro l
        exact List.filter_congr fun x _ => Bool.and_comm _ _
      have heq : ((sortByScoreDesc (scoredPool C segs audio sr)).filter suitable).filter
          (fun x => decide (x.engagement_score = s)) =
          (scoredPool C segs audio sr).filter
          (fun x => decide (x.engagement_score = s) && suitable x) := by
        rw [List.filter_filter, hcomm,
          ← List.filter_filter (fun x => decide (x.engagement_score = s))
            (sortByScoreDesc (scoredPool C segs audio sr)),
          sortByScoreDesc_filter_score, List.filter_filter, ← hcomm]
      exact heq ▸ hpre

/-- Witness for C1 at a concrete input: the scored combined candidate is a
member of the returned list and satisfies the duration bounds. -/
theorem analyzeEngagement_selection_filtering_witness :
    ({ start_time := 0, end_time := 12, text := ['h', 'e', 'l', 'l', 'o'],
        engagement_score := 0, duration := 12, source := "combined" } : Scored) ∈
      analyzeEngagement zeroCollab [segHello] [] 1 ∧
    (10 : ℚ) ≤ 12 ∧ (12 : ℚ) ≤ 60 := by
  refine ⟨by with_unfolding_all decide, ?_⟩
  have h := (analyzeEngagement_selection_filtering zeroCollab [segHello] [] 1).1
    { start_time := 0, end_time := 12, text := ['h', 'e', 'l', 'l', 'o'],
      engagement_score := 0, duration := 12, source := "combined" }
    (by with_unfolding_all decide)
  exact h

/-! ## C2 -/

/-- C2: for every candidate text and time span, waveform and sample rate,
the fused engagement score equals
`clamp(0.4 * text_score + 0.6 * audio_score, 0, 1)` where the two
sub-scores are the text and audio scorer results.  The hypotheses are the
§6 contracts of the external feature collaborators (mean spectral centroid
and mean zero-crossing rate are non-negative), without which the audio
score — and hence the unclamped-from-below source expression
`min(text*0.4 + audio*0.6, 1.0)` — could go negative. -/
theorem calculateEngagementScore_fusion (C : Collaborators)
    (hc : ∀ l n, 0 ≤ C.meanCentroid l n) (hz : ∀ l, 0 ≤ C.meanZcr l)
    (text : List Char) (audio : List ℚ) (sr : ℕ) (startTime endTime : ℚ) :
    calculateEngagementScore C text audio sr startTime endTime =
      clamp ((4 / 10) * analyzeTextEngagement C text +
        (6 / 10) * analyzeAudioEngagement C audio sr startTime endTime) 0 1 := by
  have ht := analyzeTextEngagement_nonneg C text
  have ha := analyzeAudioEngagement_nonneg C hc hz audio sr startTime endTime
  have harg : (0 : ℚ) ≤ (4 / 10) * analyzeTextEngagement C text +
      (6 / 10) * analyzeAudioEngagement C audio sr startTime endTime := by
    have h1 : (0 : ℚ) ≤ (4 / 10) * analyzeTextEngagement C text :=
      mul_nonneg (by norm_num) ht
    have h2 : (0 : ℚ) ≤ (6 / 10) * analyzeAudioEngagement C audio sr startTime endTime :=
      mul_nonneg (by norm_num) ha
    linarith
  unfold calculateEngagementScore clamp
  rw [max_eq_right (le_min harg zero_le_one)]
  ring_nf

/-- Witness for C2 at a concrete input, with the collaborator contracts
discharged for `zeroCollab`. -/
theorem calculateEngagementScore_fusion_witness :
    (∀ l n, 0 ≤ zeroCollab.meanCentroid l n) ∧ (∀ l, 0 ≤ zeroCollab.meanZcr l) ∧
    calculateEngagementScore zeroCollab ['h', 'i'] [] 1 0 12 =
      clamp ((4 / 10) * analyzeTextEngagement zeroCollab ['h', 'i'] +
        (6 / 10) * analyzeAudioEngagement zeroCollab [] 1 0 12) 0 1 :=
  ⟨fun _ _ => le_refl 0, fun _ => le_refl 0,
    calculateEngagementScore_fusion zeroCollab (fun _ _ => le_refl 0) (fun _ => le_refl 0)
      ['h', 'i'] [] 1 0 12⟩

/-! ## C3 -/

/-- C3: for any input sequence of segments and any target duration, the
merger never emits a combined candidate whose duration (`end - start`) is
below 10 seconds (a closed group below the floor is dropped by the
`current_duration >= 10` emission guard).  This holds for arbitrary
inputs, in particular for those with monotonically non-decreasing
start/end times. -/
theorem combineSegments_duration_floor (segments : List TranscriptSegment) (target : ℚ)
    (c : Candidate) (h : c ∈ combineSegments segments target) :
    10 ≤ c.stop - c.start :=
  combineSegments_duration h

/-- The combined candidate emitted for the input `[segHello]`. -/
def candHello : Candidate :=
  { start := 0, stop := 12, text := ['h', 'e', 'l', 'l', 'o'], source := some "combined" }

/-- Witness for C3: a concrete emitted candidate of duration 12. -/
theorem combineSegments_duration_floor_witness :
    candHello ∈ combineSegments [segHello] 30 ∧ 10 ≤ candHello.stop - candHello.start := by
  have hm : candHello ∈ combineSegments [segHello] 30 := by with_unfolding_all decide
  exact ⟨hm, combineSegments_duration_floor [segHello] 30 candHello hm⟩

/-! ## C4 -/

theorem combineAux_cons (lastSeg : TranscriptSegment) (target : ℚ)
    (seg : TranscriptSegment) (rest : List TranscriptSegment)
    (curStart : Option ℚ) (curText : List Char) :
    combineAux lastSeg target (seg :: rest) curStart curText =
      if target ≤ seg.stop - curStart.getD seg.start ∨ seg = lastSeg then
        (if 10 ≤ seg.stop - curStart.getD seg.start then
          [{ start := curStart.getD seg.start, stop := seg.stop,
              text := trimCL (curText ++ (' ' :: trimCL seg.text)),
              source := some "combined" }]
        else []) ++ combineAux lastSeg target rest none []
      else
        combineAux lastSeg target rest (some (curStart.getD seg.start))
          (curText ++ (' ' :: trimCL seg.text)) :=
  rfl

theorem combineByPosAux_cons (target : ℚ)
    (seg : TranscriptSegment) (rest : List TranscriptSegment)
    (curStart : Option ℚ) (curText : List Char) :
    combineByPosAux target (seg :: rest) curStart curText =
      if target ≤ seg.stop - curStart.getD seg.start ∨ rest = [] then
        (if 10 ≤ seg.stop - curStart.getD seg.start then
          [{ start := curStart.getD seg.start, stop := seg.stop,
              text := trimCL (curText ++ (' ' :: trimCL seg.text)),
              source := some "combined" }]
        else []) ++ combineByPosAux target rest none []
      else
        combineByPosAux target rest (some (curStart.getD seg.start))
          (curText ++ (' ' :: trimCL seg.text)) :=
  rfl

theorem combineAux_eq_byPos {lastSeg : TranscriptSegment} {target : ℚ} :
    ∀ (l : List TranscriptSegment), l.getLast? = some lastSeg →
    (∀ s ∈ l.dropLast, s ≠ lastSeg) → ∀ (curStart : Option ℚ) (curText : List Char),
    combineAux lastSeg target l curStart curText = combineByPosAux target l curStart curText
  | [], hl, _ => by simp at hl
  | [seg], hl, _ => by
    have hseg : seg = lastSeg := by simpa using hl
    subst hseg
    intro curStart curText
    rw [combineAux_cons, combineByPosAux_cons, if_pos (Or.inr rfl), if_pos (Or.inr rfl)]
    rfl
  | seg :: r :: rs, hl, huniq => by
    intro curStart curText
    have hl' : (r :: rs).getLast? = some lastSeg := by
      rw [List.getLast?_cons_cons] at hl
      exact hl
    have hseg : seg ≠ lastSeg := huniq seg (by simp [List.dropLast_cons₂])
    have huniq' : ∀ s ∈ (r :: rs).dropLast, s ≠ lastSeg := fun s hs =>
      huniq s (by rw [List.dropLast_cons₂]; exact List.mem_cons_of_mem seg hs)
    have ih := @combineAux_eq_byPos lastSeg target (r :: rs) hl' huniq'
    rw [combineAux_cons, combineByPosAux_cons]
    by_cases htd : target ≤ seg.stop - curStart.getD seg.start
    · rw [if_pos (Or.inl htd), if_pos (Or.inl htd), ih none []]
    · have h1 : ¬ (target ≤ seg.stop - curStart.getD seg.start ∨ seg = lastSeg) := by
        rintro (h | h)
        · exact htd h
        · exact hseg h
      have h2 : ¬ (target ≤ seg.stop - curStart.getD seg.start ∨
          (r :: rs : List TranscriptSegment) = []) := by
        rintro (h | h)
        · exact htd h
        · exact List.cons_ne_nil r rs h
      rw [if_neg h1, if_neg h2,
        ih (some (curStart.getD seg.start)) (curText ++ (' ' :: trimCL seg.text))]

/-- C4 (amended): the merger's close condition is "duration reached the
target, or the segment being processed compares equal *by value* to the
last segment of the input" (`segment == segments[-1]` in the source).
Whenever the last segment's value occurs only at the last position — in
particular whenever the segments are pairwise distinct — this coincides
with the position-based close condition stated by the spec. -/
theorem combineSegments_close_condition (target : ℚ) (segments : List TranscriptSegment)
    (lastSeg : TranscriptSegment) (hl : segments.getLast? = some lastSeg)
    (huniq : ∀ s ∈ segments.dropLast, s ≠ lastSeg) :
    combineSegments segments target = combineSegmentsByPos segments target := by
  simp only [combineSegments, hl, combineSegmentsByPos]
  exact combineAux_eq_byPos segments hl huniq none []

/-- Counterexample for C4 as stated: with the duplicate input
`[segX, segX]` the value-equality test closes the running group already at
the *first* position (which is not the last one), producing two emitted
candidates, while the position-based close condition of the claim would
produce a single merged candidate. -/
theorem combineSegments_close_condition_counterexample :
    combineSegments [segX, segX] 30 ≠ combineSegmentsByPos [segX, segX] 30 := by
  with_unfolding_all decide

/-- Witness for C4 (amended) at an input whose last segment value occurs
only at the last position. -/
theorem combineSegments_close_condition_witness :
    ([segShort, segMid].getLast? = some segMid) ∧
    (∀ s ∈ [segShort, segMid].dropLast, s ≠ segMid) ∧
    combineSegments [segShort, segMid] 30 = combineSegmentsByPos [segShort, segMid] 30 :=
  ⟨by with_unfolding_all decide, by with_unfolding_all decide,
    combineSegments_close_condition 30 [segShort, segMid] segMid
      (by with_unfolding_all decide) (by with_unfolding_all decide)⟩

/-! ## C5 -/

/-- C5: for every collaborator behaviour, waveform and sample rate, the
selector applied to an empty sequence of transcript segments returns the
empty list; the model is a total function, so no error is raised (the
`if not whisper_segments` guard fires before any other computation). -/
theorem analyzeEngagement_empty_input (C : Collaborators) (audio : List ℚ) (sr : ℕ) :
    analyzeEngagement C [] audio sr = [] :=
  rfl

/-! ## Helper lemmas: whitespace-only text -/

theorem toLower_isWhitespace {c : Char} (h : c.isWhitespace = true) :
    (Char.toLower c).isWhitespace = true := by
  simp only [Char.isWhitespace, Bool.or_eq_true, decide_eq_true_eq] at h
  rcases h with ((h | h) | h) | h <;> subst h <;> decide

theorem wordCountAux_eq_zero {l : List Char} (h : ∀ c ∈ l, c.isWhitespace = true) :
    ∀ b, wordCountAux b l = 0 := by
  induction l with
  | nil => intro b; rfl
  | cons c rest ih =>
    intro b
    rw [wordCountAux, if_pos (h c (List.mem_cons_self c rest))]
    exact ih (fun x hx => h x (List.mem_cons_of_mem c hx)) false

theorem countOccsAux_eq_zero {c0 : Char} {p' : List Char} (hc0 : c0.isWhitespace = false) :
    ∀ (fuel : ℕ) (s : List Char), (∀ c ∈ s, c.isWhitespace = true) →
    countOccsAux (c0 :: p') fuel s = 0 := by
  intro fuel
  induction fuel with
  | zero => intro s _; rfl
  | succ n ih =>
    intro s hs
    cases s with
    | nil => rfl
    | cons c rest =>
      have hcw : c.isWhitespace = true := hs c (List.mem_cons_self c rest)
      have hne : ¬ ((c0 :: p' : List Char) ≠ [] ∧ (c0 :: p').isPrefixOf (c :: rest) = true) := by
        rintro ⟨-, hpre⟩
        simp only [List.isPrefixOf, Bool.and_eq_true, beq_iff_eq] at hpre
        rcases hpre with ⟨rfl, -⟩
        rw [hcw] at hc0
        exact Bool.noConfusion hc0
      rw [countOccsAux, if_neg hne]
      exact ih rest fun x hx => hs x (List.mem_cons_of_mem c hx)

theorem laughterTotal_eq_zero {t : List Char} (h : ∀ c ∈ t, c.isWhitespace = true) :
    laughterTotal t = 0 := by
  have hlow : ∀ c ∈ lowerCL t, c.isWhitespace = true := by
    intro c hc
    rcases List.mem_map.mp hc with ⟨d, hd, rfl⟩
    exact toLower_isWhitespace (h d hd)
  simp only [laughterTotal, laughterPatterns, List.map_cons, List.map_nil, List.sum_cons,
    List.sum_nil, countOccs]
  rw [countOccsAux_eq_zero (by decide) _ _ hlow, countOccsAux_eq_zero (by decide) _ _ hlow,
    countOccsAux_eq_zero (by decide) _ _ hlow, countOccsAux_eq_zero (by decide) _ _ hlow,
    countOccsAux_eq_zero (by decide) _ _ hlow, countOccsAux_eq_zero (by decide) _ _ hlow]
  rfl

theorem count_eq_zero_of_ws {ch : Char} (hch : ch.isWhitespace = false) {t : List Char}
    (h : ∀ c ∈ t, c.isWhitespace = true) : t.count ch = 0 :=
  List.count_eq_zero.mpr fun hmem => by
    rw [h ch hmem] at hch
    exact Bool.noConfusion hch

/-! ## C6 -/

/-- C6 (amended): assuming the sentiment collaborator returns polarity in
`[-1, 1]`, the text score lies in `[0, 1]` and the empty text scores
exactly 0; but a whitespace-only *non-empty* text (which Python's
`if not text` guard does not catch) scores `|polarity| * 0.3`, which is 0
only when the collaborator assigns polarity 0 to it. -/
theorem analyzeTextEngagement_bounds (C : Collaborators)
    (hs : ∀ t, -1 ≤ C.sentiment t ∧ C.sentiment t ≤ 1) (text : List Char) :
    (0 ≤ analyzeTextEngagement C text ∧ analyzeTextEngagement C text ≤ 1) ∧
    analyzeTextEngagement C [] = 0 ∧
    (text ≠ [] → (∀ c ∈ text, c.isWhitespace = true) →
      analyzeTextEngagement C text = |C.sentiment text| * (3 / 10)) := by
  refine ⟨⟨analyzeTextEngagement_nonneg C text, analyzeTextEngagement_le_one C text⟩, rfl, ?_⟩
  intro hne hws
  have hq : text.count '?' = 0 := count_eq_zero_of_ws (by decide) hws
  have hx : text.count '!' = 0 := count_eq_zero_of_ws (by decide) hws
  have hl : laughterTotal text = 0 := laughterTotal_eq_zero hws
  have hw : wordCount text = 0 := wordCountAux_eq_zero hws false
  have hcond : ¬ (5 ≤ wordCount text ∧ wordCount text ≤ 50) := by
    rw [hw]
    decide
  have habs : |C.sentiment text| ≤ 1 := abs_le.mpr ⟨(hs text).1, (hs text).2⟩
  have hsmall : |C.sentiment text| * (3 / 10) ≤ 1 := by
    nlinarith [abs_nonneg (C.sentiment text)]
  simp only [analyzeTextEngagement, if_neg hne, hq, hx, hl, Nat.cast_zero, zero_mul,
    if_neg hcond]
  norm_num
  exact hsmall

/-- Counterexample for C6 as stated: with a sentiment collaborator that
returns the in-range polarity 1 on the single-space text, the score of
that whitespace-only text is `0.3`, not `0`. -/
theorem analyzeTextEngagement_whitespace_counterexample :
    (∀ c ∈ [' '], c.isWhitespace = true) ∧
    (∀ t, -1 ≤ oneSentCollab.sentiment t ∧ oneSentCollab.sentiment t ≤ 1) ∧
    analyzeTextEngagement oneSentCollab [' '] = 3 / 10 ∧ (3 / 10 : ℚ) ≠ 0 := by
  refine ⟨by decide, ?_, by with_unfolding_all decide, by norm_num⟩
  intro t
  show (-1 : ℚ) ≤ 1 ∧ (1 : ℚ) ≤ 1
  norm_num

/-- Witness for C6 (amended) at concrete inputs. -/
theorem analyzeTextEngagement_bounds_witness :
    (∀ t, -1 ≤ zeroCollab.sentiment t ∧ zeroCollab.sentiment t ≤ 1) ∧
    (0 ≤ analyzeTextEngagement zeroCollab [' '] ∧ analyzeTextEngagement zeroCollab [' '] ≤ 1) ∧
    analyzeTextEngagement zeroCollab [] = 0 ∧
    ([' '] ≠ ([] : List Char)) ∧
    analyzeTextEngagement zeroCollab [' '] = |zeroCollab.sentiment [' ']| * (3 / 10) := by
  have hs : ∀ t, -1 ≤ zeroCollab.sentiment t ∧ zeroCollab.sentiment t ≤ 1 := by
    intro t
    show (-1 : ℚ) ≤ 0 ∧ (0 : ℚ) ≤ 1
    norm_num
  have h := analyzeTextEngagement_bounds zeroCollab hs [' ']
  exact ⟨hs, h.1, h.2.1, by decide, h.2.2 (by decide) (by decide)⟩

/-! ## C7 -/

/-- C7: the audio scorer examines exactly the waveform slice
`audio[int(start*sr) : int(end*sr)]` (truncating integer sample indices,
see `audioSlice`); if that slice is empty the score is exactly 0, and in
any case — assuming the external spectral-centroid and zero-crossing-rate
collaborators return non-negative values — the score lies in `[0, 1]`. -/
theorem analyzeAudioEngagement_slice_bounds (C : Collaborators)
    (hc : ∀ l n, 0 ≤ C.meanCentroid l n) (hz : ∀ l, 0 ≤ C.meanZcr l)
    (audio : List ℚ) (sr : ℕ) (startTime endTime : ℚ) :
    (audioSlice audio sr startTime endTime = [] →
      analyzeAudioEngagement C audio sr startTime endTime = 0) ∧
    0 ≤ analyzeAudioEngagement C audio sr startTime endTime ∧
    analyzeAudioEngagement C audio sr startTime endTime ≤ 1 :=
  ⟨fun h => by simp [analyzeAudioEngagement, h],
    analyzeAudioEngagement_nonneg C hc hz audio sr startTime endTime,
    analyzeAudioEngagement_le_one C audio sr startTime endTime⟩

/-- Witness for C7 at a concrete non-empty slice, with the collaborator
contracts discharged for `zeroCollab`. -/
theorem analyzeAudioEngagement_slice_bounds_witness :
    (∀ l n, 0 ≤ zeroCollab.meanCentroid l n) ∧ (∀ l, 0 ≤ zeroCollab.meanZcr l) ∧
    audioSlice [1 / 2, 1 / 2] 1 0 2 ≠ [] ∧
    0 ≤ analyzeAudioEngagement zeroCollab [1 / 2, 1 / 2] 1 0 2 ∧
    analyzeAudioEngagement zeroCollab [1 / 2, 1 / 2] 1 0 2 ≤ 1 := by
  have h := analyzeAudioEngagement_slice_bounds zeroCollab (fun _ _ => le_refl 0)
    (fun _ => le_refl 0) [1 / 2, 1 / 2] 1 0 2
  exact ⟨fun _ _ => le_refl 0, fun _ => le_refl 0, by with_unfolding_all decide, h.2.1, h.2.2⟩

/-! ## C8 -/

/-- Modelled from the claim's words: the number of *overlapping*
occurrences of a pattern — one count for every position of the scanned
text at which the pattern matches. -/
def overlapOccs (p s : List Char) : ℕ :=
  ((List.range s.length).filter fun i => p.isPrefixOf (s.drop i)).length

/-- Modelled from the claim's words: the laughter count with overlapping
occurrences allowed, summed across all patterns. -/
def overlapLaughterTotal (t : List Char) : ℕ :=
  (laughterPatterns.map fun p => overlapOccs p (lowerCL t)).sum

/-- C8 (amended): the laughter contribution counts case-insensitive
*non-overlapping* occurrences (Python `str.count` semantics: leftmost
match, resume after the match) of the literal substrings and emoji,
summed across patterns, contributing `min(count * 0.1, 0.2)`: whenever
the other four signals vanish, the text score equals exactly that
contribution. -/
theorem analyzeTextEngagement_laughter (C : Collaborators) (t : List Char)
    (hse : C.sentiment t = 0) (hq : t.count '?' = 0) (hx : t.count '!' = 0)
    (hw : ¬ (5 ≤ wordCount t ∧ wordCount t ≤ 50)) (hne : t ≠ []) :
    analyzeTextEngagement C t = min ((laughterTotal t : ℚ) * (1 / 10)) (2 / 10) := by
  simp only [analyzeTextEngagement, if_neg hne, hse, hq, hx, Nat.cast_zero, zero_mul,
    if_neg hw, abs_zero]
  norm_num

/-- Counterexample for C8 as stated: on the text `"hahaha"` (scored with
all-zero collaborators, so that only the laughter signal is active) the
code produces the score `0.1` — one non-overlapping occurrence of
`"haha"` — while the claim's overlapping count (2) would contribute
`0.2`. -/
theorem analyzeTextEngagement_laughter_counterexample :
    analyzeTextEngagement zeroCollab hahahaText = 1 / 10 ∧
    min ((overlapLaughterTotal hahahaText : ℚ) * (1 / 10)) (2 / 10) = 2 / 10 ∧
    (1 / 10 : ℚ) ≠ 2 / 10 := by
  refine ⟨by with_unfolding_all decide, by with_unfolding_all decide, by norm_num⟩

/-- Witness for C8 (amended) at the concrete text `"hahaha"`. -/
theorem analyzeTextEngagement_laughter_witness :
    zeroCollab.sentiment hahahaText = 0 ∧ hahahaText.count '?' = 0 ∧
    hahahaText.count '!' = 0 ∧ ¬ (5 ≤ wordCount hahahaText ∧ wordCount hahahaText ≤ 50) ∧
    hahahaText ≠ [] ∧
    analyzeTextEngagement zeroCollab hahahaText =
      min ((laughterTotal hahahaText : ℚ) * (1 / 10)) (2 / 10) :=
  ⟨rfl, by decide, by decide, by decide, by decide,
    analyzeTextEngagement_laughter zeroCollab hahahaText rfl (by decide) (by decide)
      (by decide) (by decide)⟩

/-! ## C9 -/

/-- Counterexample for C9 as stated: the code contains no `end <= start`
guard; the malformed segment `segBad` is folded into the running group
(shifting its start and contributing its text), so both the merger and
the selector produce a different result than they do on the input with
the malformed segment removed. -/
theorem analyzeEngagement_malformed_counterexample :
    segBad.stop ≤ segBad.start ∧
    combineSegments [segBad, segGood] 30 ≠ combineSegments [segGood] 30 ∧
    analyzeEngagement zeroCollab [segBad, segGood] [] 1 ≠
      analyzeEngagement zeroCollab [segGood] [] 1 := by
  refine ⟨by with_unfolding_all decide, by with_unfolding_all decide,
    by with_unfolding_all decide⟩

/-- C9 (amended): malformed segments (`end <= start`) are *not* skipped —
they participate in grouping and can shift a group's start and text — but
the duration filters still guarantee that on any input containing a
malformed segment every returned candidate has duration in `[10, 60]`
(in particular positive), and the total model raises no error. -/
theorem analyzeEngagement_malformed_bounds (C : Collaborators)
    (segs : List TranscriptSegment) (audio : List ℚ) (sr : ℕ)
    (_hmal : ∃ s ∈ segs, s.stop ≤ s.start) (x : Scored)
    (hx : x ∈ analyzeEngagement C segs audio sr) :
    10 ≤ x.duration ∧ x.duration ≤ 60 ∧ 0 < x.duration := by
  by_cases hseg : segs = []
  · rw [analyzeEngagement, if_pos hseg] at hx
    simp at hx
  · rw [analyzeEngagement, if_neg hseg] at hx
    have hx' := List.mem_filter.mp (List.mem_of_mem_take hx)
    have hb := (suitable_iff x).mp hx'.2
    exact ⟨hb.1, hb.2, lt_of_lt_of_le (by norm_num) hb.1⟩

/-- The scored entry built across the malformed segment in the input
`[segBad, segGood]`. -/
def scoredBadGood : Scored :=
  { start_time := 20, end_time := 40, text := ['b', 'a', 'd', ' ', 'g', 'o', 'o', 'd'],
    engagement_score := 0, duration := 20, source := "combined" }

/-- Witness for C9 (amended): the input `[segBad, segGood]` contains a
malformed segment, and the combined candidate built across it is returned
with duration 20. -/
theorem analyzeEngagement_malformed_bounds_witness :
    (∃ s ∈ [segBad, segGood], s.stop ≤ s.start) ∧
    scoredBadGood ∈ analyzeEngagement zeroCollab [segBad, segGood] [] 1 ∧
    10 ≤ scoredBadGood.duration ∧ scoredBadGood.duration ≤ 60 ∧ 0 < scoredBadGood.duration := by
  have hm : scoredBadGood ∈ analyzeEngagement zeroCollab [segBad, segGood] [] 1 := by
    with_unfolding_all decide
  have h := analyzeEngagement_malformed_bounds zeroCollab [segBad, segGood] [] 1
    (by with_unfolding_all decide) _ hm
  exact ⟨by with_unfolding_all decide, hm, h.1, h.2.1, h.2.2⟩

/-! ## C10 -/

/-- C10 (amended): every candidate returned by the selector carries a
`source` field that is either `"combined"` (merger output) or `"unknown"`
(the `dict.get('source', 'unknown')` default used for atomic pass-through
segments, which carry no `source` key); the value `"atomic"` never
occurs. -/
theorem analyzeEngagement_source_values (C : Collaborators)
    (segs : List TranscriptSegment) (audio : List ℚ) (sr : ℕ) (x : Scored)
    (hx : x ∈ analyzeEngagement C segs audio sr) :
    x.source = "combined" ∨ x.source = "unknown" := by
  by_cases hseg : segs = []
  · rw [analyzeEngagement, if_pos hseg] at hx
    simp at hx
  · rw [analyzeEngagement, if_neg hseg] at hx
    exact scoredPool_source
      (mem_sortByScoreDesc.mp (List.mem_filter.mp (List.mem_of_mem_take hx)).1)

/-- Counterexample for C10 as stated: on the input `[segHello]` the
returned list contains the atomic pass-through entry, whose `source` is
`"unknown"` — neither `"atomic"` nor `"combined"`. -/
theorem analyzeEngagement_source_counterexample :
    ¬ (∀ x ∈ analyzeEngagement zeroCollab [segHello] [] 1,
        x.source = "atomic" ∨ x.source = "combined") := by
  with_unfolding_all decide

/-- The atomic pass-through entry of the run on `[segHello]`. -/
def scoredHelloAtomic : Scored :=
  { start_time := 0, end_time := 12, text := ['h', 'e', 'l', 'l', 'o'],
    engagement_score := 0, duration := 12, source := "unknown" }

/-- Witness for C10 (amended): the atomic entry of a concrete run, whose
source is `"unknown"`. -/
theorem analyzeEngagement_source_values_witness :
    scoredHelloAtomic ∈ analyzeEngagement zeroCollab [segHello] [] 1 ∧
    (scoredHelloAtomic.source = "combined" ∨ scoredHelloAtomic.source = "unknown") := by
  have hm : scoredHelloAtomic ∈ analyzeEngagement zeroCollab [segHello] [] 1 := by
    with_unfolding_all decide
  exact ⟨hm, analyzeEngagement_source_values zeroCollab [segHello] [] 1 _ hm⟩
